import Mathlib

/-
Verification of the CVM358 data-consolidation pipeline
(src/br_stock_trading.py and src/reports/report_generator.py).

The embedding models:
  * schema normalization (file classification by filename substring,
    column renaming via the per-family translation tables, File_Type tag),
  * the version-resolution consolidator
    (sort_values by Reference_Date ascending / Version descending with
    missing versions last, groupby on the identity key taking the first
    row per group, final sort by Reference_Date),
  * the delta/change tracker of ReportGenerator.generate_report
    (previous-snapshot lookup with the legacy mapping shape,
    new_records = total - previous, snapshot overwrite),
  * the top-level main wiring (error propagation, what gets persisted).

Dates are modelled as abstract parse functions String -> Option Int
(pandas to_datetime succeeds or raises; the embedding is parametric in
which strings parse), versions as String -> Option Int
(pandas to_numeric with errors=coerce maps non-numeric input to NaN,
modelled as none).
-/

namespace CVM358

/-! ## Schema normalizer (src/br_stock_trading.py, lines 112-169) -/

/-- RawRow models one row of a CSV file read by pandas: an ordered list of
column-name / value pairs. -/
abbrev RawRow := List (String × String)

/-- Translation table for files classified as Consolidated
(src/br_stock_trading.py lines 122-141). -/
def consolidatedMapping : List (String × String) :=
  [("CNPJ_Companhia", "Company_CNPJ"),
   ("Nome_Companhia", "Company_Name"),
   ("Data_Referencia", "Reference_Date"),
   ("Versao", "Version"),
   ("Tipo_Empresa", "Company_Type"),
   ("Empresa", "Company"),
   ("Tipo_Cargo", "Position_Type"),
   ("Tipo_Movimentacao", "Movement_Type"),
   ("Descricao_Movimentacao", "Movement_Description"),
   ("Tipo_Operacao", "Operation_Type"),
   ("Tipo_Ativo", "Asset_Type"),
   ("Caracteristica_Valor_Mobiliario", "Security_Characteristic"),
   ("Intermediario", "Intermediary"),
   ("Data_Movimentacao", "Movement_Date"),
   ("Quantidade", "Quantity"),
   ("Preco_Unitario", "Unit_Price"),
   ("Volume", "Volume"),
   ("File_Type", "File_Type")]

/-- Translation table for files classified as Individual
(src/br_stock_trading.py lines 148-162). -/
def individualMapping : List (String × String) :=
  [("CNPJ_Companhia", "Company_CNPJ"),
   ("Nome_Companhia", "Company_Name"),
   ("Data_Referencia", "Reference_Date"),
   ("Versao", "Version"),
   ("Codigo_CVM", "CVM_Code"),
   ("Categoria", "Category"),
   ("Tipo", "Type"),
   ("Data_Entrega", "Delivery_Date"),
   ("Tipo_Apresentacao", "Presentation_Type"),
   ("Motivo_Reapresentacao", "Restatement_Reason"),
   ("Protocolo_Entrega", "Delivery_Protocol"),
   ("Link_Download", "Download_Link"),
   ("File_Type", "File_Type")]

/-- Semantics of a single column label under df.rename(columns=mapping):
a label that is a key of the mapping is replaced by its image, every other
label is kept unchanged.  (The source filters the mapping to keys present
in the frame, which is exactly what rename does anyway.) -/
def renameField (mapping : List (String × String)) (k : String) : String :=
  ((mapping.lookup k).getD k)

/-- Column renaming applied to one row. -/
def renameRow (mapping : List (String × String)) (row : RawRow) : RawRow :=
  row.map (fun kv => (renameField mapping kv.1, kv.2))

/-- Column assignment df[k] = v: when a column named k exists its values
are replaced in place (position preserved), otherwise the column is
appended as the last column of the frame. -/
def setField (k v : String) (row : RawRow) : RawRow :=
  if row.any (fun kv => decide (kv.1 = k)) then
    row.map (fun kv => if kv.1 = k then (k, v) else kv)
  else row ++ [(k, v)]

/-- Normalization of one row of a classified file: the source first sets the
File_Type column (overwriting it when the row already has one, appending it
otherwise) and then applies the rename
(src/br_stock_trading.py lines 120, 143, 146, 164). -/
def normalizeRow (mapping : List (String × String)) (fam : String) (row : RawRow) : RawRow :=
  renameRow mapping (setField "File_Type" fam row)

/-- Containment of one character sequence inside another, used for the
Python substring test (pat in s). -/
def charsInfix : List Char → List Char → Bool
  | pat, [] => decide (pat = [])
  | pat, c :: rest => pat.isPrefixOf (c :: rest) || charsInfix pat rest

/-- Family classification of a source file: Consolidated when the lowercased
path contains the marker substring of consolidated extracts
(src/br_stock_trading.py line 119). -/
def isConsolidatedName (name : String) : Bool :=
  charsInfix "_con_".data (name.data.map Char.toLower)

/-! ## Rows seen by the consolidator

The consolidation stage of process_trading_data reads a fixed set of
columns: Reference_Date, the family's secondary date column
(Movement_Date for Consolidated, Delivery_Date for Individual), Version,
and the remaining identity-key columns.  GRow is a source row restricted
to those columns, with every remaining column kept in the other payload.
The three family-specific key slots are field5/field6/field7:
Consolidated uses field5 = Movement_Type; Individual uses
field5 = CVM_Code, field6 = Category, field7 = Type. -/

/-- Unparsed row of one family as consumed by the consolidation stage. -/
structure GRow where
  referenceDate : String
  companyCNPJ : String
  companyName : String
  secondaryDate : String
  field5 : String
  field6 : String
  field7 : String
  version : String
  other : List (String × String)
deriving DecidableEq, Repr

/-- Row after the date and version conversions of process_trading_data
(lines 175-179 and 201-205): both date columns parsed, Version coerced to a
number with non-numeric input becoming missing (NaN, modelled as none). -/
structure PRow where
  referenceDate : Int
  companyCNPJ : String
  companyName : String
  secondaryDate : Int
  field5 : String
  field6 : String
  field7 : String
  version : Option Int
  other : List (String × String)
deriving DecidableEq, Repr

/-- Date and version conversion of one row.  pandas to_datetime raises on a
string it cannot parse (that is the default errors=raise), which aborts
process_trading_data; to_numeric with errors=coerce never raises. -/
def parseRow (pd pv : String → Option Int) (r : GRow) : Except String PRow :=
  match pd r.referenceDate, pd r.secondaryDate with
  | some d1, some d2 =>
      .ok { referenceDate := d1, companyCNPJ := r.companyCNPJ,
            companyName := r.companyName, secondaryDate := d2,
            field5 := r.field5, field6 := r.field6, field7 := r.field7,
            version := pv r.version, other := r.other }
  | _, _ => .error "time data does not match any known format"

/-! ## Identity keys and orders -/

/-- One component of an identity key: a parsed date or a string column. -/
inductive KeyPart where
  | intPart (i : Int)
  | strPart (s : String)
deriving DecidableEq, Repr

/-- Identity key of a record: the list of its key columns, in the order the
source passes them to groupby. -/
abbrev Key := List KeyPart

/-- Strict order on key components (dates by their numeric order, strings by
lexicographic order; the two sorts never mix within one key position). -/
def KeyPart.ltB : KeyPart → KeyPart → Bool
  | .intPart i, .intPart j => decide (i < j)
  | .intPart _, .strPart _ => true
  | .strPart _, .intPart _ => false
  | .strPart s, .strPart t => decide (s < t)

/-- Strict lexicographic order on keys, as pandas groupby(sort=True) orders
the group keys. -/
def keyLtB : Key → Key → Bool
  | [], [] => false
  | [], _ :: _ => true
  | _ :: _, [] => false
  | a :: as, b :: bs => KeyPart.ltB a b || (decide (a = b) && keyLtB as bs)

/-- Reflexive closure of the lexicographic key order. -/
def keyLeB (k l : Key) : Bool := keyLtB k l || decide (k = l)

/-- Identity key of the Consolidated family
(src/br_stock_trading.py line 182): Reference_Date, Company_CNPJ,
Company_Name, Movement_Date, Movement_Type. -/
def keyOfConsolidated (r : PRow) : Key :=
  [.intPart r.referenceDate, .strPart r.companyCNPJ, .strPart r.companyName,
   .intPart r.secondaryDate, .strPart r.field5]

/-- Identity key of the Individual family
(src/br_stock_trading.py line 208): Reference_Date, Company_CNPJ,
Company_Name, CVM_Code, Category, Type. -/
def keyOfIndividual (r : PRow) : Key :=
  [.intPart r.referenceDate, .strPart r.companyCNPJ, .strPart r.companyName,
   .strPart r.field5, .strPart r.field6, .strPart r.field7]

/-- Order on Version columns used by
sort_values(ascending=False, na_position=last): versionDescLe v w holds when
v may come before w in descending order with missing (NaN) placed last. -/
def versionDescLe : Option Int → Option Int → Bool
  | some x, some y => decide (y ≤ x)
  | some _, none => true
  | none, some _ => false
  | none, none => true

/-- versionLe v w: version v is at most version w in the resolution order in
which a missing version is below every numeric version. -/
def versionLe (v w : Option Int) : Bool := versionDescLe w v

/-- Row comparison implementing
sort_values([Reference_Date, Version], ascending=[True, False])
(Reference_Date ascending, then Version descending with NaN last); the
multi-column sort of pandas is a stable lexicographic sort. -/
def rvLe (a b : PRow) : Bool :=
  decide (a.referenceDate < b.referenceDate) ||
    (decide (a.referenceDate = b.referenceDate) && versionDescLe a.version b.version)

/-- Row comparison implementing the final sort_values(Reference_Date). -/
def refLe (a b : PRow) : Bool := decide (a.referenceDate ≤ b.referenceDate)

/-- The multi-column sort order as a relation, for List.insertionSort. -/
def rvRel : PRow → PRow → Prop := fun a b => rvLe a b = true

/-- The group-key order as a relation on rows. -/
def keyRel (keyOf : PRow → Key) : PRow → PRow → Prop :=
  fun a b => keyLeB (keyOf a) (keyOf b) = true

/-- The Reference_Date order as a relation on rows. -/
def refRel : PRow → PRow → Prop := fun a b => refLe a b = true

instance : DecidableRel rvRel :=
  fun a b => inferInstanceAs (Decidable (rvLe a b = true))

instance (keyOf : PRow → Key) : DecidableRel (keyRel keyOf) :=
  fun a b => inferInstanceAs (Decidable (keyLeB (keyOf a) (keyOf b) = true))

instance : DecidableRel refRel :=
  fun a b => inferInstanceAs (Decidable (refLe a b = true))

/-! ## Version-resolution consolidator
(src/br_stock_trading.py lines 171-223) -/

/-- Left-to-right pass keeping the first row of every not-yet-seen key. -/
def dedupSeen (keyOf : PRow → Key) : List Key → List PRow → List PRow
  | _, [] => []
  | seen, a :: rest =>
      if keyOf a ∈ seen then dedupSeen keyOf seen rest
      else a :: dedupSeen keyOf (keyOf a :: seen) rest

/-- Representative selection of groupby(key_fields).first() on a frame that
is already sorted: keep the first occurrence of every key, in order of first
appearance.  In the embedding the only nullable column is Version, and the
preceding sort places the numeric versions of a group (all sharing one
Reference_Date) before its missing ones, so the first row of a group agrees
column by column with the first-non-null semantics of GroupBy.first. -/
def dedupKeepFirst (keyOf : PRow → Key) (l : List PRow) : List PRow :=
  dedupSeen keyOf [] l

/-- Consolidation of the parsed records of one family: stable sort by
(Reference_Date ascending, Version descending with missing last), take the
first row of each identity-key group with the groups ordered by key
(groupby with sort=True), then sort by Reference_Date.  The sorts are
modelled by insertion sort, which computes the same function as any stable
sort by the same comparator (the multi-column lexsort of pandas is stable;
the final single-column sort only has to be deterministic, see the
idempotence proof).  All key columns of the embedding are total, so the
pandas behaviour of dropping null group keys cannot trigger.  Re-running
the source consolidator on its own output re-applies the date and version
conversions, which are the identity on already-converted columns;
consolidate therefore consumes and produces parsed rows. -/
def consolidate (keyOf : PRow → Key) (rows : List PRow) : List PRow :=
  List.insertionSort refRel
    (List.insertionSort (keyRel keyOf)
      (dedupKeepFirst keyOf (List.insertionSort rvRel rows)))

/-- Source file as the pipeline sees it: a path name and either the parsed
rows of the file or a read/decode error (pandas read_csv raising). -/
structure SrcFile where
  name : String
  content : Except String (List GRow)
deriving Repr

/-- File loop of process_trading_data (lines 112-169): a file whose read
fails is logged and skipped, every other file is classified by name and its
rows are appended to the family's collection in file order. -/
def splitFiles : List SrcFile → List GRow × List GRow
  | [] => ([], [])
  | f :: rest =>
      let (c, i) := splitFiles rest
      match f.content with
      | .error _ => (c, i)
      | .ok rows =>
          if isConsolidatedName f.name then (rows ++ c, i) else (c, rows ++ i)

/-- Whole of process_trading_data: split the files into the two families,
convert dates (propagating a parse failure as the exception pandas raises)
and versions, and consolidate each family.  An empty family yields an empty
table. -/
def processTradingData (pd pv : String → Option Int) (files : List SrcFile) :
    Except String (List PRow × List PRow) :=
  match (splitFiles files).1.mapM (parseRow pd pv) with
  | .error e => .error e
  | .ok pc =>
      match (splitFiles files).2.mapM (parseRow pd pv) with
      | .error e => .error e
      | .ok pi =>
          .ok (consolidate keyOfConsolidated pc, consolidate keyOfIndividual pi)

/-! ## Delta/change tracker
(src/reports/report_generator.py, ReportGenerator.generate_report) -/

/-- Persisted total_records value of the prior snapshot: current runs store
a number, a legacy snapshot may hold a mapping of family name to count. -/
inductive SnapVal where
  | num (n : Int)
  | dict (entries : List (String × Int))
deriving DecidableEq, Repr

/-- Persisted last_run snapshot entry of run_history.json. -/
structure LastRun where
  timestamp : String
  totalRecords : SnapVal
  uniqueCompanies : Int
deriving DecidableEq, Repr

/-- Run history: the last_run entry when one exists. -/
abbrev History := Option LastRun

/-- Previous total as generate_report reads it (lines 437-440):
history.get(last_run, {}).get(total_records, 0), and when that value is a
mapping, its consolidated entry with default 0. -/
def prevTotal (h : History) : Int :=
  match h with
  | none => 0
  | some lr =>
      match lr.totalRecords with
      | .num n => n
      | .dict entries => (entries.lookup "consolidated").getD 0

/-- Report data computed by generate_report, restricted to the fields of
the delta tracker (the chart/HTML rendering is presentation, out of the
core per the specification's scope). -/
structure Report where
  runTime : String
  latestData : Int
  totalRecords : Int
  newRecords : Int
  uniqueCompanies : Int
deriving DecidableEq, Repr

/-- generate_report (lines 413-468) on the consolidated table: reading the
Reference_Date column of an empty frame raises (a KeyError on the
column-less empty frame, or equivalently the strftime failure on an all-NaT
maximum); otherwise compute the totals, the delta against the prior
snapshot, and overwrite the snapshot with the current counts and the run
timestamp. -/
def generateReport (consolidated : List PRow) (h : History) (now : String) :
    Except String (Report × History) :=
  match (consolidated.map (·.referenceDate)).max? with
  | none => .error "KeyError: Reference_Date"
  | some latest =>
      let total : Int := consolidated.length
      let uniq : Int := ((consolidated.map (·.companyCNPJ)).dedup).length
      .ok ({ runTime := now, latestData := latest, totalRecords := total,
             newRecords := total - prevTotal h, uniqueCompanies := uniq },
           some { timestamp := now, totalRecords := .num total,
                  uniqueCompanies := uniq })

/-- Call interface of ReportGenerator.generate_report
(src/reports/report_generator.py line 413): the method receives both
family tables, but it binds the Individual table to an unused parameter,
so the report and the new snapshot depend only on the consolidated table
(generateReport above models the body); no Individual count or delta is
computed anywhere. -/
def generateReportBoth (consolidated _individual : List PRow) (h : History)
    (now : String) : Except String (Report × History) :=
  generateReport consolidated h now

/-! ## Top-level wiring (src/br_stock_trading.py, main, lines 244-334) -/

/-- Persisted effects of one run: the two output CSV files and the run
history.  A CSV slot keeps its previous value until overwritten. -/
structure Store where
  consolidatedCsv : Option (List PRow)
  individualCsv : Option (List PRow)
  history : History
deriving Repr

/-- main after download (lines 288-319): process the files (an exception
aborts the run before anything is persisted), save each non-empty table,
then generate_report, which updates the snapshot and yields the report; a
generate_report exception leaves the snapshot untouched. -/
def runMain (pd pv : String → Option Int) (files : List SrcFile) (st : Store)
    (now : String) : Store × Except String Report :=
  match processTradingData pd pv files with
  | .error e => (st, .error e)
  | .ok tables =>
      let st1 : Store :=
        { st with
          consolidatedCsv := if tables.1.isEmpty then st.consolidatedCsv else some tables.1,
          individualCsv := if tables.2.isEmpty then st.individualCsv else some tables.2 }
      match generateReportBoth tables.1 tables.2 st1.history now with
      | .error e => (st1, .error e)
      | .ok rh => ({ st1 with history := rh.2 }, .ok rh.1)

/-! ## Concrete inputs used to exercise the theorems -/

/-- Date parser fixture: the date strings of the sample records parse, any
other string raises. -/
def pdW : String → Option Int := fun s =>
  if s = "2024-01" then some 202401
  else if s = "2024-01-15" then some 20240115
  else none

/-- Version parser fixture: numerals parse, any other string (such as the
non-numeric marker) coerces to missing. -/
def pvW : String → Option Int := fun s =>
  if s = "1" then some 1 else if s = "2" then some 2 else none

/-- Parsed record with a non-numeric Version (coerced to missing). -/
def rowNA : PRow :=
  ⟨202401, "TAXID1", "ACME", 20240115, "Compra", "", "", none,
   [("Quantity", "100")]⟩

/-- Parsed record sharing the identity key of rowNA, with Version 1. -/
def rowV1 : PRow :=
  ⟨202401, "TAXID1", "ACME", 20240115, "Compra", "", "", some 1,
   [("Quantity", "150")]⟩

/-- Raw record whose Reference_Date does not parse. -/
def badDateRow : GRow :=
  ⟨"not-a-date", "TAXID1", "ACME", "2024-01-15", "Compra", "", "", "1", []⟩

/-- Raw consolidated record whose dates parse. -/
def goodConRow : GRow :=
  ⟨"2024-01", "TAXID1", "ACME", "2024-01-15", "Compra", "", "", "1", []⟩

/-- Raw individual record whose dates parse. -/
def goodIndRow : GRow :=
  ⟨"2024-01", "TAXID1", "ACME", "2024-01-15", "DFP", "Categoria A", "Tipo B", "2", []⟩

/-- Consolidated source file that reads correctly. -/
def conFile : SrcFile := ⟨"vlmo_con_2024.csv", .ok [goodConRow]⟩

/-- Consolidated source file holding a record with an unparseable date. -/
def badDateFile : SrcFile := ⟨"vlmo_con_2025.csv", .ok [badDateRow]⟩

/-- Source file whose read fails (encoding or CSV decode error). -/
def badDecodeFile : SrcFile := ⟨"vlmo_con_2026.csv", .error "UnicodeDecodeError"⟩

/-- Individual source file that reads correctly. -/
def indFile : SrcFile := ⟨"vlmo_2024.csv", .ok [goodIndRow]⟩

/-- Persisted state before a sample run. -/
def storeW : Store :=
  ⟨some [rowV1], none, some ⟨"2025-01-01", SnapVal.num 5, 2⟩⟩

/-- Image of goodIndRow under the date and version conversions. -/
def indParsed : PRow :=
  ⟨202401, "TAXID1", "ACME", 20240115, "DFP", "Categoria A", "Tipo B",
   some 2, []⟩

/-! ## Order-theoretic facts about the comparators -/

theorem KeyPart.ltB_irrefl (a : KeyPart) : KeyPart.ltB a a = false := by
  cases a <;> simp [KeyPart.ltB]

theorem KeyPart.ltB_trans {a b c : KeyPart} (h1 : KeyPart.ltB a b = true)
    (h2 : KeyPart.ltB b c = true) : KeyPart.ltB a c = true := by
  cases a <;> cases b <;> cases c <;> simp_all [KeyPart.ltB] <;>
    first
      | omega
      | exact lt_trans h1 h2

theorem KeyPart.ltB_connex {a b : KeyPart} (h : a ≠ b) :
    KeyPart.ltB a b = true ∨ KeyPart.ltB b a = true := by
  cases a <;> cases b <;> simp_all only [KeyPart.ltB, decide_eq_true_eq,
    ne_eq, KeyPart.intPart.injEq, KeyPart.strPart.injEq]
  · omega
  · exact Or.inl trivial
  · exact Or.inr trivial
  · exact lt_or_gt_of_ne h

theorem keyLtB_irrefl (k : Key) : keyLtB k k = false := by
  induction k with
  | nil => rfl
  | cons a as ih => simp [keyLtB, KeyPart.ltB_irrefl, ih]

theorem keyLtB_trans : ∀ {k l m : Key}, keyLtB k l = true → keyLtB l m = true →
    keyLtB k m = true
  | [], [], _, h1, _ => by simp [keyLtB] at h1
  | [], _ :: _, [], _, h2 => by simp [keyLtB] at h2
  | [], _ :: _, _ :: _, _, _ => by simp [keyLtB]
  | _ :: _, [], _, h1, _ => by simp [keyLtB] at h1
  | _ :: _, _ :: _, [], _, h2 => by simp [keyLtB] at h2
  | a :: as, b :: bs, c :: cs, h1, h2 => by
    simp only [keyLtB, Bool.or_eq_true, Bool.and_eq_true, decide_eq_true_eq] at h1 h2 ⊢
    rcases h1 with h1 | ⟨rfl, h1⟩
    · rcases h2 with h2 | ⟨rfl, _⟩
      · exact Or.inl (KeyPart.ltB_trans h1 h2)
      · exact Or.inl h1
    · rcases h2 with h2 | ⟨rfl, h2⟩
      · exact Or.inl h2
      · exact Or.inr ⟨rfl, keyLtB_trans h1 h2⟩

theorem keyLtB_connex : ∀ {k l : Key}, k ≠ l →
    keyLtB k l = true ∨ keyLtB l k = true
  | [], [], h => absurd rfl h
  | [], _ :: _, _ => Or.inl (by simp [keyLtB])
  | _ :: _, [], _ => Or.inr (by simp [keyLtB])
  | a :: as, b :: bs, h => by
    by_cases hab : a = b
    · subst hab
      have htl : as ≠ bs := fun hh => h (by rw [hh])
      rcases keyLtB_connex htl with h1 | h1
      · exact Or.inl (by simp [keyLtB, h1])
      · exact Or.inr (by simp [keyLtB, h1])
    · rcases KeyPart.ltB_connex hab with h1 | h1
      · exact Or.inl (by simp [keyLtB, h1])
      · exact Or.inr (by simp [keyLtB, h1])

theorem keyLtB_asymm {k l : Key} (h1 : keyLtB k l = true) (h2 : keyLtB l k = true) :
    False := by
  have := keyLtB_trans h1 h2
  rw [keyLtB_irrefl] at this
  exact Bool.false_ne_true this

theorem keyLeB_total (k l : Key) : (keyLeB k l || keyLeB l k) = true := by
  by_cases h : k = l
  · simp [keyLeB, h]
  · rcases keyLtB_connex h with h1 | h1 <;> simp [keyLeB, h1]

theorem keyLeB_trans {k l m : Key} (h1 : keyLeB k l = true) (h2 : keyLeB l m = true) :
    keyLeB k m = true := by
  simp only [keyLeB, Bool.or_eq_true, decide_eq_true_eq] at h1 h2 ⊢
  rcases h1 with h1 | rfl
  · rcases h2 with h2 | rfl
    · exact Or.inl (keyLtB_trans h1 h2)
    · exact Or.inl h1
  · exact h2

theorem keyLtB_of_keyLeB_ne {k l : Key} (h1 : keyLeB k l = true) (h2 : k ≠ l) :
    keyLtB k l = true := by
  simp only [keyLeB, Bool.or_eq_true, decide_eq_true_eq] at h1
  exact h1.resolve_right h2

theorem versionDescLe_total (a b : Option Int) :
    (versionDescLe a b || versionDescLe b a) = true := by
  cases a <;> cases b <;> simp [versionDescLe] <;> omega

theorem versionDescLe_trans {a b c : Option Int} (h1 : versionDescLe a b = true)
    (h2 : versionDescLe b c = true) : versionDescLe a c = true := by
  cases a <;> cases b <;> cases c <;> simp_all [versionDescLe] <;> omega

theorem versionLe_refl (v : Option Int) : versionLe v v = true := by
  cases v <;> simp [versionLe, versionDescLe]

theorem rvLe_total (a b : PRow) : (rvLe a b || rvLe b a) = true := by
  simp only [rvLe, Bool.or_eq_true, Bool.and_eq_true, decide_eq_true_eq]
  rcases lt_trichotomy a.referenceDate b.referenceDate with h | h | h
  · exact Or.inl (Or.inl h)
  · have := versionDescLe_total a.version b.version
    simp only [Bool.or_eq_true] at this
    rcases this with h1 | h1
    · exact Or.inl (Or.inr ⟨h, h1⟩)
    · exact Or.inr (Or.inr ⟨h.symm, h1⟩)
  · exact Or.inr (Or.inl h)

theorem rvLe_trans {a b c : PRow} (h1 : rvLe a b = true) (h2 : rvLe b c = true) :
    rvLe a c = true := by
  simp only [rvLe, Bool.or_eq_true, Bool.and_eq_true, decide_eq_true_eq] at h1 h2 ⊢
  rcases h1 with h1 | ⟨he1, hv1⟩
  · rcases h2 with h2 | ⟨he2, _⟩
    · exact Or.inl (lt_trans h1 h2)
    · exact Or.inl (he2 ▸ h1)
  · rcases h2 with h2 | ⟨he2, hv2⟩
    · exact Or.inl (he1 ▸ h2)
    · exact Or.inr ⟨he1.trans he2, versionDescLe_trans hv1 hv2⟩

theorem refLe_total (a b : PRow) : (refLe a b || refLe b a) = true := by
  simp only [refLe, Bool.or_eq_true, decide_eq_true_eq]
  omega

theorem refLe_trans {a b c : PRow} (h1 : refLe a b = true) (h2 : refLe b c = true) :
    refLe a c = true := by
  simp only [refLe, decide_eq_true_eq] at h1 h2 ⊢
  omega

/-! ## Facts about the per-family key projections -/

theorem keyOfConsolidated_ref_eq {a b : PRow}
    (h : keyOfConsolidated a = keyOfConsolidated b) :
    a.referenceDate = b.referenceDate := by
  simp only [keyOfConsolidated, List.cons.injEq, KeyPart.intPart.injEq,
    KeyPart.strPart.injEq] at h
  exact h.1

theorem keyOfIndividual_ref_eq {a b : PRow}
    (h : keyOfIndividual a = keyOfIndividual b) :
    a.referenceDate = b.referenceDate := by
  simp only [keyOfIndividual, List.cons.injEq, KeyPart.intPart.injEq,
    KeyPart.strPart.injEq] at h
  exact h.1

theorem keyOfConsolidated_ref_le {a b : PRow}
    (h : keyLtB (keyOfConsolidated a) (keyOfConsolidated b) = true) :
    a.referenceDate ≤ b.referenceDate := by
  simp only [keyOfConsolidated, keyLtB, KeyPart.ltB, Bool.or_eq_true,
    Bool.and_eq_true, decide_eq_true_eq, KeyPart.intPart.injEq] at h
  rcases h with h | ⟨he, _⟩
  · exact le_of_lt h
  · exact le_of_eq he

theorem keyOfIndividual_ref_le {a b : PRow}
    (h : keyLtB (keyOfIndividual a) (keyOfIndividual b) = true) :
    a.referenceDate ≤ b.referenceDate := by
  simp only [keyOfIndividual, keyLtB, KeyPart.ltB, Bool.or_eq_true,
    Bool.and_eq_true, decide_eq_true_eq, KeyPart.intPart.injEq] at h
  rcases h with h | ⟨he, _⟩
  · exact le_of_lt h
  · exact le_of_eq he

/-! ## Total-order facts packaged for the sorting library -/

theorem rvRel_isTotal : IsTotal PRow rvRel := by
  constructor
  intro a b
  have := rvLe_total a b
  simp only [Bool.or_eq_true] at this
  exact this

theorem rvRel_isTrans : IsTrans PRow rvRel :=
  ⟨fun _ _ _ h1 h2 => rvLe_trans h1 h2⟩

theorem keyRel_isTotal (keyOf : PRow → Key) : IsTotal PRow (keyRel keyOf) := by
  constructor
  intro a b
  have := keyLeB_total (keyOf a) (keyOf b)
  simp only [Bool.or_eq_true] at this
  exact this

theorem keyRel_isTrans (keyOf : PRow → Key) : IsTrans PRow (keyRel keyOf) :=
  ⟨fun _ _ _ h1 h2 => keyLeB_trans h1 h2⟩

theorem refRel_isTotal : IsTotal PRow refRel := by
  constructor
  intro a b
  have := refLe_total a b
  simp only [Bool.or_eq_true] at this
  exact this

theorem refRel_isTrans : IsTrans PRow refRel :=
  ⟨fun _ _ _ h1 h2 => refLe_trans h1 h2⟩

/-! ## Properties of the group-and-take-first step -/

theorem mem_of_mem_dedupSeen (keyOf : PRow → Key) :
    ∀ (seen : List Key) (l : List PRow) (r : PRow),
      r ∈ dedupSeen keyOf seen l → r ∈ l := by
  intro seen l
  induction l generalizing seen with
  | nil => intro r h; simp [dedupSeen] at h
  | cons a rest ih =>
    intro r h
    rw [dedupSeen] at h
    by_cases hs : keyOf a ∈ seen
    · rw [if_pos hs] at h
      exact List.mem_cons_of_mem a (ih seen r h)
    · rw [if_neg hs] at h
      rcases List.mem_cons.mp h with rfl | h2
      · exact List.mem_cons_self _ _
      · exact List.mem_cons_of_mem a (ih _ r h2)

theorem keyOf_not_mem_of_mem_dedupSeen (keyOf : PRow → Key) :
    ∀ (seen : List Key) (l : List PRow) (r : PRow),
      r ∈ dedupSeen keyOf seen l → keyOf r ∉ seen := by
  intro seen l
  induction l generalizing seen with
  | nil => intro r h; simp [dedupSeen] at h
  | cons a rest ih =>
    intro r h
    rw [dedupSeen] at h
    by_cases hs : keyOf a ∈ seen
    · rw [if_pos hs] at h
      exact ih seen r h
    · rw [if_neg hs] at h
      rcases List.mem_cons.mp h with rfl | h2
      · exact hs
      · have := ih _ r h2
        exact fun hc => this (List.mem_cons_of_mem _ hc)

theorem pairwise_ne_dedupSeen (keyOf : PRow → Key) :
    ∀ (seen : List Key) (l : List PRow),
      (dedupSeen keyOf seen l).Pairwise (fun a b => keyOf a ≠ keyOf b) := by
  intro seen l
  induction l generalizing seen with
  | nil => simp [dedupSeen]
  | cons a rest ih =>
    rw [dedupSeen]
    by_cases hs : keyOf a ∈ seen
    · rw [if_pos hs]
      exact ih seen
    · rw [if_neg hs]
      refine List.Pairwise.cons (fun x hx => ?_) (ih _)
      have hnot := keyOf_not_mem_of_mem_dedupSeen keyOf _ _ x hx
      exact fun he => hnot (by rw [← he]; exact List.mem_cons_self _ _)

theorem dedupSeen_eq_self (keyOf : PRow → Key) :
    ∀ (seen : List Key) (l : List PRow),
      l.Pairwise (fun a b => keyOf a ≠ keyOf b) →
      (∀ x ∈ l, keyOf x ∉ seen) →
      dedupSeen keyOf seen l = l := by
  intro seen l
  induction l generalizing seen with
  | nil => intro _ _; rfl
  | cons a rest ih =>
    intro hp hseen
    obtain ⟨h1, h2⟩ := List.pairwise_cons.mp hp
    rw [dedupSeen, if_neg (hseen a (List.mem_cons_self _ _))]
    congr 1
    refine ih _ h2 (fun x hx hc => ?_)
    rcases List.mem_cons.mp hc with he | hc2
    · exact h1 x hx he.symm
    · exact hseen x (List.mem_cons_of_mem a hx) hc2

theorem dedupSeen_version_max (keyOf : PRow → Key)
    (hk : ∀ a b : PRow, keyOf a = keyOf b → a.referenceDate = b.referenceDate) :
    ∀ (seen : List Key) (l : List PRow), l.Pairwise rvRel →
      ∀ r ∈ dedupSeen keyOf seen l, ∀ s ∈ l, keyOf s = keyOf r →
        versionLe s.version r.version = true := by
  intro seen l
  induction l generalizing seen with
  | nil => intro _ r hr; simp [dedupSeen] at hr
  | cons a rest ih =>
    intro hp r hr s hsl hks
    obtain ⟨hhead, htail⟩ := List.pairwise_cons.mp hp
    rw [dedupSeen] at hr
    by_cases hs : keyOf a ∈ seen
    · rw [if_pos hs] at hr
      have hnot := keyOf_not_mem_of_mem_dedupSeen keyOf seen rest r hr
      rcases List.mem_cons.mp hsl with rfl | hs2
      · exact absurd (hks ▸ hs) hnot
      · exact ih seen htail r hr s hs2 hks
    · rw [if_neg hs] at hr
      rcases List.mem_cons.mp hr with rfl | hr2
      · rcases List.mem_cons.mp hsl with rfl | hs2
        · exact versionLe_refl _
        · have h1 := hhead s hs2
          have href : s.referenceDate = r.referenceDate := hk s r hks
          simp only [rvRel, rvLe, Bool.or_eq_true, Bool.and_eq_true,
            decide_eq_true_eq] at h1
          rcases h1 with h1 | ⟨_, h1⟩
          · exact absurd h1 (by omega)
          · exact h1
      · have hnot := keyOf_not_mem_of_mem_dedupSeen keyOf _ _ r hr2
        rcases List.mem_cons.mp hsl with rfl | hs2
        · exact (hnot (by rw [← hks]; exact List.mem_cons_self _ _)).elim
        · exact ih _ htail r hr2 s hs2 hks

theorem pairwise_ne_dedupKeepFirst (keyOf : PRow → Key) (l : List PRow) :
    (dedupKeepFirst keyOf l).Pairwise (fun a b => keyOf a ≠ keyOf b) :=
  pairwise_ne_dedupSeen keyOf [] l

theorem dedupKeepFirst_eq_self (keyOf : PRow → Key) (l : List PRow)
    (h : l.Pairwise (fun a b => keyOf a ≠ keyOf b)) :
    dedupKeepFirst keyOf l = l :=
  dedupSeen_eq_self keyOf [] l h (fun x _ => List.not_mem_nil (keyOf x))

/-! ## Properties of the consolidator -/

theorem consolidate_perm (keyOf : PRow → Key) (rows : List PRow) :
    List.Perm (consolidate keyOf rows)
      (dedupKeepFirst keyOf (List.insertionSort rvRel rows)) :=
  (List.perm_insertionSort _ _).trans (List.perm_insertionSort _ _)

theorem consolidate_pairwise_ne (keyOf : PRow → Key) (rows : List PRow) :
    (consolidate keyOf rows).Pairwise (fun a b => keyOf a ≠ keyOf b) :=
  ((consolidate_perm keyOf rows).pairwise_iff (fun h => Ne.symm h)).mpr
    (pairwise_ne_dedupKeepFirst keyOf _)

theorem consolidate_version_max (keyOf : PRow → Key)
    (hk : ∀ a b : PRow, keyOf a = keyOf b → a.referenceDate = b.referenceDate)
    (rows : List PRow) (r : PRow) (hr : r ∈ consolidate keyOf rows) :
    r ∈ rows ∧
      ∀ s ∈ rows, keyOf s = keyOf r → versionLe s.version r.version = true := by
  haveI := rvRel_isTotal
  haveI := rvRel_isTrans
  have hr2 : r ∈ dedupKeepFirst keyOf (List.insertionSort rvRel rows) :=
    (consolidate_perm keyOf rows).mem_iff.mp hr
  have hsorted : (List.insertionSort rvRel rows).Pairwise rvRel :=
    List.sorted_insertionSort rvRel rows
  constructor
  · exact (List.mem_insertionSort rvRel).mp
      (mem_of_mem_dedupSeen keyOf [] _ r hr2)
  · intro s hsm hks
    exact dedupSeen_version_max keyOf hk [] _ hsorted r hr2 s
      ((List.mem_insertionSort rvRel).mpr hsm) hks

theorem consolidate_sorted_ref (keyOf : PRow → Key) (rows : List PRow) :
    (consolidate keyOf rows).Pairwise
      (fun a b => a.referenceDate ≤ b.referenceDate) := by
  haveI := refRel_isTotal
  haveI := refRel_isTrans
  have := List.sorted_insertionSort refRel
    (List.insertionSort (keyRel keyOf)
      (dedupKeepFirst keyOf (List.insertionSort rvRel rows)))
  exact this.imp (fun h => by simpa [refRel, refLe] using h)

/-! ## Idempotence of the consolidator -/

theorem sorted_key_insertionSort (keyOf : PRow → Key) (l : List PRow) :
    (List.insertionSort (keyRel keyOf) l).Pairwise (keyRel keyOf) := by
  haveI := keyRel_isTotal keyOf
  haveI := keyRel_isTrans keyOf
  exact List.sorted_insertionSort (keyRel keyOf) l

/-- Dropping the final sort by Reference_Date: the group keys begin with the
Reference_Date column, so the key-ordered output of the grouping step is
already ordered by Reference_Date, and a sort of a sorted list is the
identity. -/
theorem consolidate_eq_groupSorted (keyOf : PRow → Key)
    (hr : ∀ a b : PRow, keyLtB (keyOf a) (keyOf b) = true →
      a.referenceDate ≤ b.referenceDate)
    (hk : ∀ a b : PRow, keyOf a = keyOf b → a.referenceDate = b.referenceDate)
    (rows : List PRow) :
    consolidate keyOf rows =
      List.insertionSort (keyRel keyOf)
        (dedupKeepFirst keyOf (List.insertionSort rvRel rows)) := by
  unfold consolidate
  apply List.Sorted.insertionSort_eq
  refine (sorted_key_insertionSort keyOf _).imp (fun {a b} h => ?_)
  simp only [keyRel, keyLeB, Bool.or_eq_true, decide_eq_true_eq] at h
  simp only [refRel, refLe, decide_eq_true_eq]
  rcases h with h | h
  · exact hr a b h
  · exact le_of_eq (hk a b h)

theorem consolidate_pairwise_keyLt (keyOf : PRow → Key)
    (hr : ∀ a b : PRow, keyLtB (keyOf a) (keyOf b) = true →
      a.referenceDate ≤ b.referenceDate)
    (hk : ∀ a b : PRow, keyOf a = keyOf b → a.referenceDate = b.referenceDate)
    (rows : List PRow) :
    (consolidate keyOf rows).Pairwise
      (fun a b => keyLtB (keyOf a) (keyOf b) = true) := by
  rw [consolidate_eq_groupSorted keyOf hr hk]
  have h1 := sorted_key_insertionSort keyOf
    (dedupKeepFirst keyOf (List.insertionSort rvRel rows))
  have h2 : (List.insertionSort (keyRel keyOf)
      (dedupKeepFirst keyOf (List.insertionSort rvRel rows))).Pairwise
      (fun a b => keyOf a ≠ keyOf b) :=
    ((List.perm_insertionSort _ _).pairwise_iff (fun h => Ne.symm h)).mpr
      (pairwise_ne_dedupKeepFirst keyOf _)
  exact (h1.and h2).imp (fun ⟨hle, hne⟩ => keyLtB_of_keyLeB_ne hle hne)

/-- Two lists of records that are permutations of each other and both
strictly ordered by their keys are equal. -/
theorem eq_of_perm_of_pairwise_keyLt (keyOf : PRow → Key) {l1 l2 : List PRow}
    (p : List.Perm l1 l2)
    (s1 : l1.Pairwise (fun a b => keyLtB (keyOf a) (keyOf b) = true))
    (s2 : l2.Pairwise (fun a b => keyLtB (keyOf a) (keyOf b) = true)) :
    l1 = l2 := by
  haveI : IsAntisymm PRow
      (fun a b => keyLtB (keyOf a) (keyOf b) = true ∨ a = b) := by
    constructor
    intro a b h1 h2
    rcases h1 with h1 | rfl
    · rcases h2 with h2 | rfl
      · exact (keyLtB_asymm h1 h2).elim
      · rfl
    · rfl
  exact @List.eq_of_perm_of_sorted PRow
    (fun a b => keyLtB (keyOf a) (keyOf b) = true ∨ a = b) _ l1 l2 p
    (s1.imp Or.inl) (s2.imp Or.inl)

/-- Consolidating an already-consolidated table changes nothing: its keys
are pairwise distinct, so the grouping keeps every record, and re-sorting a
deterministically ordered table reproduces it. -/
theorem consolidate_idem (keyOf : PRow → Key)
    (hr : ∀ a b : PRow, keyLtB (keyOf a) (keyOf b) = true →
      a.referenceDate ≤ b.referenceDate)
    (hk : ∀ a b : PRow, keyOf a = keyOf b → a.referenceDate = b.referenceDate)
    (rows : List PRow) :
    consolidate keyOf (consolidate keyOf rows) = consolidate keyOf rows := by
  have hstrict := consolidate_pairwise_keyLt keyOf hr hk rows
  have htne := consolidate_pairwise_ne keyOf rows
  rw [consolidate_eq_groupSorted keyOf hr hk (consolidate keyOf rows)]
  have hperm1 : List.Perm (List.insertionSort rvRel (consolidate keyOf rows))
      (consolidate keyOf rows) := List.perm_insertionSort _ _
  have hne1 : (List.insertionSort rvRel (consolidate keyOf rows)).Pairwise
      (fun a b => keyOf a ≠ keyOf b) :=
    (hperm1.pairwise_iff (fun h => Ne.symm h)).mpr htne
  rw [dedupKeepFirst_eq_self keyOf _ hne1]
  have hpermAll : List.Perm
      (List.insertionSort (keyRel keyOf)
        (List.insertionSort rvRel (consolidate keyOf rows)))
      (consolidate keyOf rows) :=
    (List.perm_insertionSort _ _).trans hperm1
  have hsorted2 := sorted_key_insertionSort keyOf
    (List.insertionSort rvRel (consolidate keyOf rows))
  have hne2 : (List.insertionSort (keyRel keyOf)
      (List.insertionSort rvRel (consolidate keyOf rows))).Pairwise
      (fun a b => keyOf a ≠ keyOf b) :=
    (hpermAll.pairwise_iff (fun h => Ne.symm h)).mpr htne
  exact eq_of_perm_of_pairwise_keyLt keyOf hpermAll
    ((hsorted2.and hne2).imp (fun ⟨hle, hne⟩ => keyLtB_of_keyLeB_ne hle hne))
    hstrict

/-! ## Error propagation through the pipeline -/

theorem consolidate_nil (keyOf : PRow → Key) : consolidate keyOf [] = [] := rfl

theorem parseRow_error (pd pv : String → Option Int) {r : GRow}
    (hfail : pd r.referenceDate = none ∨ pd r.secondaryDate = none) :
    ∃ e, parseRow pd pv r = Except.error e := by
  refine ⟨"time data does not match any known format", ?_⟩
  unfold parseRow
  rcases hfail with h | h
  · rw [h]
  · rw [h]
    cases pd r.referenceDate <;> rfl

theorem mapM_parseRow_error (pd pv : String → Option Int) {l : List GRow}
    {r : GRow} (hr : r ∈ l)
    (hfail : pd r.referenceDate = none ∨ pd r.secondaryDate = none) :
    ∃ e, l.mapM (parseRow pd pv) = Except.error e := by
  induction l with
  | nil => cases hr
  | cons a t ih =>
    rw [List.mapM_cons]
    rcases List.mem_cons.mp hr with rfl | hmem
    · obtain ⟨e, he⟩ := parseRow_error pd pv hfail
      exact ⟨e, by rw [he]; rfl⟩
    · cases ha : parseRow pd pv a with
      | error e => exact ⟨e, by rfl⟩
      | ok p =>
        obtain ⟨e, he⟩ := ih hmem
        exact ⟨e, by rw [he]; rfl⟩

theorem processTradingData_error (pd pv : String → Option Int)
    (files : List SrcFile) {r : GRow}
    (hr : r ∈ (splitFiles files).1 ∨ r ∈ (splitFiles files).2)
    (hfail : pd r.referenceDate = none ∨ pd r.secondaryDate = none) :
    ∃ e, processTradingData pd pv files = Except.error e := by
  unfold processTradingData
  rcases hr with hr | hr
  · obtain ⟨e, he⟩ := mapM_parseRow_error pd pv hr hfail
    exact ⟨e, by rw [he]⟩
  · obtain ⟨e, he⟩ := mapM_parseRow_error pd pv hr hfail
    cases hc : (splitFiles files).1.mapM (parseRow pd pv) with
    | error e2 => exact ⟨e2, rfl⟩
    | ok pc => exact ⟨e, by rw [he]⟩

theorem splitFiles_skip (f : SrcFile) (hf : ∃ e, f.content = Except.error e) :
    ∀ (xs ys : List SrcFile),
      splitFiles (xs ++ f :: ys) = splitFiles (xs ++ ys)
  | [], ys => by
    obtain ⟨e, he⟩ := hf
    simp only [List.nil_append]
    rw [splitFiles, he]
  | x :: xs, ys => by
    simp only [List.cons_append]
    rw [splitFiles, splitFiles, splitFiles_skip f hf xs ys]

theorem splitFiles_fst_nil {files : List SrcFile}
    (h : ∀ f ∈ files, isConsolidatedName f.name = false ∨
      ∃ e, f.content = Except.error e) :
    (splitFiles files).1 = [] := by
  induction files with
  | nil => rfl
  | cons f rest ih =>
    rw [splitFiles]
    have hrest := ih (fun g hg => h g (List.mem_cons_of_mem f hg))
    rcases h f (List.mem_cons_self f rest) with h1 | ⟨e, he⟩
    · cases hc : f.content with
      | error e => simp [hrest]
      | ok rows => simp [h1, hrest]
    · rw [he]
      simpa using hrest

theorem processTradingData_of_fst_nil (pd pv : String → Option Int)
    (files : List SrcFile) (hnil : (splitFiles files).1 = []) :
    processTradingData pd pv files =
      match (splitFiles files).2.mapM (parseRow pd pv) with
      | .error e => .error e
      | .ok pi => .ok ([], consolidate keyOfIndividual pi) := by
  unfold processTradingData
  rw [hnil]
  rfl

/-! ## The claims -/

/-- C1: for every family (both identity keys) and every input set, a record
selected into the consolidated table is one of the input records, and its
Version dominates, in the order where missing is below every number, the
Version of every input record sharing its identity key; hence when the
group has a parseable Version the selected record carries the group
maximum, and a missing-Version record is never selected over a numeric
one. -/
theorem consolidator_selects_max_version (rows : List PRow) (r : PRow) :
    (r ∈ consolidate keyOfConsolidated rows →
      r ∈ rows ∧ ∀ s ∈ rows, keyOfConsolidated s = keyOfConsolidated r →
        versionLe s.version r.version = true) ∧
    (r ∈ consolidate keyOfIndividual rows →
      r ∈ rows ∧ ∀ s ∈ rows, keyOfIndividual s = keyOfIndividual r →
        versionLe s.version r.version = true) :=
  ⟨fun hr => consolidate_version_max keyOfConsolidated
      (fun _ _ h => keyOfConsolidated_ref_eq h) rows r hr,
   fun hr => consolidate_version_max keyOfIndividual
      (fun _ _ h => keyOfIndividual_ref_eq h) rows r hr⟩

/-- C1 witness: in the scenario where a missing-Version record (coerced
from a non-numeric Version) ties on identity key with a Version-1 record,
the Version-1 record is in the consolidated table and its Version dominates
the missing one. -/
theorem consolidator_selects_max_version_witness :
    rowV1 ∈ consolidate keyOfConsolidated [rowNA, rowV1] ∧
      rowV1 ∈ [rowNA, rowV1] ∧
      versionLe rowNA.version rowV1.version = true := by
  have hmem : rowV1 ∈ consolidate keyOfConsolidated [rowNA, rowV1] := by decide
  have h := (consolidator_selects_max_version [rowNA, rowV1] rowV1).1 hmem
  exact ⟨hmem, h.1, h.2 rowNA (by decide) (by decide)⟩

/-- C2: for every input set and both families, the consolidated table has
pairwise distinct identity keys: no two output records agree on all key
fields. -/
theorem consolidated_table_key_unique (rows : List PRow) :
    (consolidate keyOfConsolidated rows).Pairwise
      (fun a b => keyOfConsolidated a ≠ keyOfConsolidated b) ∧
    (consolidate keyOfIndividual rows).Pairwise
      (fun a b => keyOfIndividual a ≠ keyOfIndividual b) :=
  ⟨consolidate_pairwise_ne _ rows, consolidate_pairwise_ne _ rows⟩

/-- C3: when any accepted record (a record of a file that decoded, of
either family) has a Reference_Date or secondary date that fails to parse,
the whole run aborts with an error and the persisted state (both output
tables and the run-history snapshot) is left exactly as it was. -/
theorem date_parse_failure_aborts_run (pd pv : String → Option Int)
    (files : List SrcFile) (st : Store) (now : String) (r : GRow)
    (hacc : r ∈ (splitFiles files).1 ∨ r ∈ (splitFiles files).2)
    (hfail : pd r.referenceDate = none ∨ pd r.secondaryDate = none) :
    (runMain pd pv files st now).1 = st ∧
      ∃ e, (runMain pd pv files st now).2 = Except.error e := by
  obtain ⟨e, he⟩ := processTradingData_error pd pv files hacc hfail
  unfold runMain
  rw [he]
  exact ⟨rfl, e, rfl⟩

/-- C3 witness: a concrete run holding a record with an unparseable date
aborts and leaves the concrete prior store untouched. -/
theorem date_parse_failure_aborts_run_witness :
    (runMain pdW pvW [conFile, badDateFile] storeW "2025-02-01").1 = storeW ∧
      ∃ e, (runMain pdW pvW [conFile, badDateFile] storeW "2025-02-01").2 =
        Except.error e :=
  date_parse_failure_aborts_run pdW pvW [conFile, badDateFile] storeW
    "2025-02-01" badDateRow (Or.inl (by decide)) (Or.inl (by decide))

/-- C4 counterexample: the claim quantifies over every family, but
generate_report discards the Individual table: at a concrete prior
snapshot, the report and the persisted snapshot are identical whether the
Individual table is empty or holds one record — although the two Individual
totals differ — and the snapshot written holds a single numeric
consolidated total (1 − 5 = −4 is the only delta computed), so no
Individual new_record_count equal to its current_total − previous_total is
computed or persisted anywhere. -/
theorem delta_tracker_no_individual_delta :
    (([] : List PRow).length : Int) ≠ (([indParsed] : List PRow).length : Int) ∧
      generateReportBoth [rowV1] []
          (some ⟨"t0", SnapVal.num 5, 2⟩) "t1" =
        generateReportBoth [rowV1] [indParsed]
          (some ⟨"t0", SnapVal.num 5, 2⟩) "t1" ∧
      generateReportBoth [rowV1] [indParsed]
          (some ⟨"t0", SnapVal.num 5, 2⟩) "t1" =
        Except.ok (⟨"t1", 202401, 1, -4, 1⟩,
          some ⟨"t1", SnapVal.num 1, 1⟩) := by
  refine ⟨by decide, rfl, rfl⟩

/-- C4 (amended): the delta tracker computes the delta for the Consolidated
family only — the Individual table handed to generate_report is ignored, so
the result does not depend on it.  On a non-empty consolidated table it
succeeds, reports total record count and new_records = current total minus
the previous total exactly (as-is, possibly negative), where a missing
prior snapshot contributes zero; it overwrites the snapshot with the
current consolidated count and timestamp, so a second run on the same
table reports new_records = 0. -/
theorem delta_tracker_reports_consolidated_difference
    (consolidated individual : List PRow) (h : History) (now now2 : String)
    (hne : consolidated ≠ []) :
    generateReportBoth consolidated individual h now =
      generateReport consolidated h now ∧
    ∃ rep h1, generateReportBoth consolidated individual h now =
        Except.ok (rep, h1) ∧
      rep.totalRecords = (consolidated.length : Int) ∧
      rep.newRecords = (consolidated.length : Int) - prevTotal h ∧
      prevTotal none = 0 ∧
      h1 = some ⟨now, SnapVal.num (consolidated.length : Int),
        rep.uniqueCompanies⟩ ∧
      ∃ rep2 h2, generateReportBoth consolidated individual h1 now2 =
          Except.ok (rep2, h2) ∧
        rep2.newRecords = 0 := by
  refine ⟨rfl, ?_⟩
  cases hmax : (consolidated.map (·.referenceDate)).max? with
  | none =>
    exact absurd (by simpa using List.max?_eq_none_iff.mp hmax) hne
  | some latest =>
    unfold generateReportBoth generateReport
    rw [hmax]
    refine ⟨_, _, rfl, rfl, rfl, rfl, rfl, ?_⟩
    refine ⟨_, _, rfl, ?_⟩
    simp [prevTotal]

/-- C4 witness: a one-record consolidated table with no prior snapshot
reports new_records = 1 - 0, independently of the Individual table, and a
repeated run reports zero. -/
theorem delta_tracker_reports_consolidated_difference_witness :
    generateReportBoth [rowV1] [indParsed] none "run-one" =
      generateReport [rowV1] none "run-one" ∧
    ∃ rep h1, generateReportBoth [rowV1] [indParsed] none "run-one" =
        Except.ok (rep, h1) ∧
      rep.totalRecords = ((1 : Nat) : Int) ∧
      rep.newRecords = ((1 : Nat) : Int) - prevTotal none ∧
      prevTotal none = 0 ∧
      h1 = some ⟨"run-one", SnapVal.num ((1 : Nat) : Int),
        rep.uniqueCompanies⟩ ∧
      ∃ rep2 h2, generateReportBoth [rowV1] [indParsed] h1 "run-two" =
          Except.ok (rep2, h2) ∧
        rep2.newRecords = 0 :=
  delta_tracker_reports_consolidated_difference [rowV1] [indParsed] none
    "run-one" "run-two" (by decide)

/-- C5 counterexample: the claim that a field whose name is not a key of
the translation table is dropped is false: the source only renames columns,
so the unmapped column Foo_Col survives normalization unchanged. -/
theorem schema_normalizer_keeps_unmapped_field :
    consolidatedMapping.lookup "Foo_Col" = none ∧
      ("Foo_Col", "bar") ∈
        normalizeRow consolidatedMapping "Consolidated"
          [("Quantidade", "10"), ("Foo_Col", "bar")] := by
  constructor
  · decide
  · decide

/-- C5 (amended): schema normalization renames each field whose name is a
key of the family's translation table to its canonical name and keeps each
field other than the FamilyKind tag column whose name is not a key
unchanged under its original name — unmapped fields are not dropped; the
FamilyKind tag is always present in the output, overwriting any existing
File_Type column. -/
theorem schema_normalizer_renames_fields (mapping : List (String × String))
    (fam : String) (row : RawRow)
    (hft : mapping.lookup "File_Type" = some "File_Type") :
    ("File_Type", fam) ∈ normalizeRow mapping fam row ∧
      (∀ k v, (k, v) ∈ row → k ≠ "File_Type" → mapping.lookup k = none →
        (k, v) ∈ normalizeRow mapping fam row) ∧
      (∀ k v c, (k, v) ∈ row → k ≠ "File_Type" → mapping.lookup k = some c →
        (c, v) ∈ normalizeRow mapping fam row) := by
  unfold normalizeRow renameRow setField
  by_cases hx : row.any (fun kv => decide (kv.1 = "File_Type"))
  · rw [if_pos hx]
    refine ⟨?_, ?_, ?_⟩
    · obtain ⟨kv, hkv, hkdec⟩ := List.any_eq_true.mp hx
      have hk : kv.1 = "File_Type" := of_decide_eq_true hkdec
      refine List.mem_map.mpr ⟨("File_Type", fam), ?_,
        by simp [renameField, hft]⟩
      exact List.mem_map.mpr ⟨kv, hkv, by simp [hk]⟩
    · intro k v hkv hne hnone
      refine List.mem_map.mpr ⟨(k, v), ?_, by simp [renameField, hnone]⟩
      exact List.mem_map.mpr ⟨(k, v), hkv, by simp [hne]⟩
    · intro k v c hkv hne hsome
      refine List.mem_map.mpr ⟨(k, v), ?_, by simp [renameField, hsome]⟩
      exact List.mem_map.mpr ⟨(k, v), hkv, by simp [hne]⟩
  · rw [if_neg hx]
    refine ⟨?_, ?_, ?_⟩
    · exact List.mem_map.mpr ⟨("File_Type", fam), by simp,
        by simp [renameField, hft]⟩
    · intro k v hkv _ hnone
      exact List.mem_map.mpr ⟨(k, v), by simp [hkv],
        by simp [renameField, hnone]⟩
    · intro k v c hkv _ hsome
      exact List.mem_map.mpr ⟨(k, v), by simp [hkv],
        by simp [renameField, hsome]⟩

/-- C5 witness: on a concrete row, the mapped column Quantidade is renamed
to Quantity, the unmapped column Foo_Col survives unchanged, and the
File_Type tag is added. -/
theorem schema_normalizer_renames_fields_witness :
    ("File_Type", "Consolidated") ∈
        normalizeRow consolidatedMapping "Consolidated"
          [("Quantidade", "10"), ("Foo_Col", "bar")] ∧
      ("Foo_Col", "bar") ∈
        normalizeRow consolidatedMapping "Consolidated"
          [("Quantidade", "10"), ("Foo_Col", "bar")] ∧
      ("Quantity", "10") ∈
        normalizeRow consolidatedMapping "Consolidated"
          [("Quantidade", "10"), ("Foo_Col", "bar")] := by
  have h := schema_normalizer_renames_fields consolidatedMapping
    "Consolidated" [("Quantidade", "10"), ("Foo_Col", "bar")] (by decide)
  exact ⟨h.1, h.2.1 "Foo_Col" "bar" (by decide) (by decide) (by decide),
    h.2.2 "Quantidade" "10" "Quantity" (by decide) (by decide) (by decide)⟩

/-- C6: a file whose read fails is skipped in its entirety: both family
collections, and therefore the whole processing result, are the same as if
the file had not been in the batch, so the failed file's records are
absent, every other file's records appear, and the run completes exactly
when it would have without the file. -/
theorem decode_failure_skips_file (pd pv : String → Option Int)
    (xs ys : List SrcFile) (f : SrcFile)
    (hf : ∃ e, f.content = Except.error e) :
    splitFiles (xs ++ f :: ys) = splitFiles (xs ++ ys) ∧
      processTradingData pd pv (xs ++ f :: ys) =
        processTradingData pd pv (xs ++ ys) := by
  have h := splitFiles_skip f hf xs ys
  refine ⟨h, ?_⟩
  unfold processTradingData
  rw [h]

/-- C6 witness: a concrete batch with an undecodable file in the middle
processes identically to the batch without it. -/
theorem decode_failure_skips_file_witness :
    splitFiles [conFile, badDecodeFile, indFile] =
        splitFiles [conFile, indFile] ∧
      processTradingData pdW pvW [conFile, badDecodeFile, indFile] =
        processTradingData pdW pvW [conFile, indFile] :=
  decode_failure_skips_file pdW pvW [conFile] [indFile] badDecodeFile
    ⟨"UnicodeDecodeError", rfl⟩

/-- C7: for every input set and both families, the consolidated table is
ordered by Reference_Date non-decreasing. -/
theorem consolidated_table_sorted_by_date (rows : List PRow) :
    (consolidate keyOfConsolidated rows).Pairwise
      (fun a b => a.referenceDate ≤ b.referenceDate) ∧
    (consolidate keyOfIndividual rows).Pairwise
      (fun a b => a.referenceDate ≤ b.referenceDate) :=
  ⟨consolidate_sorted_ref _ rows, consolidate_sorted_ref _ rows⟩

/-- C8: the consolidator is idempotent for both families: consolidating an
already-consolidated table yields the same table unchanged. -/
theorem consolidator_idempotent (rows : List PRow) :
    consolidate keyOfConsolidated (consolidate keyOfConsolidated rows) =
      consolidate keyOfConsolidated rows ∧
    consolidate keyOfIndividual (consolidate keyOfIndividual rows) =
      consolidate keyOfIndividual rows :=
  ⟨consolidate_idem _ (fun _ _ h => keyOfConsolidated_ref_le h)
      (fun _ _ h => keyOfConsolidated_ref_eq h) rows,
   consolidate_idem _ (fun _ _ h => keyOfIndividual_ref_le h)
      (fun _ _ h => keyOfIndividual_ref_eq h) rows⟩

/-- C9: when every source file classifies as Individual or fails to decode
(so the consolidated table is empty) and processing itself succeeds, the
run still fails afterwards: generate_report raises on the Reference_Date
access of the empty table, main calls it unconditionally, and the
run-history snapshot is left unchanged. -/
theorem empty_consolidated_report_fails (pd pv : String → Option Int)
    (files : List SrcFile) (st : Store) (now : String)
    (h1 : ∀ f ∈ files, isConsolidatedName f.name = false ∨
      ∃ e, f.content = Except.error e)
    (t : List PRow × List PRow)
    (h2 : processTradingData pd pv files = Except.ok t) :
    (runMain pd pv files st now).1.history = st.history ∧
      (runMain pd pv files st now).2 =
        Except.error "KeyError: Reference_Date" := by
  have hnil := splitFiles_fst_nil h1
  have hpt := processTradingData_of_fst_nil pd pv files hnil
  rw [h2] at hpt
  have ht1 : t.1 = [] := by
    cases hi : (splitFiles files).2.mapM (parseRow pd pv) with
    | error e => rw [hi] at hpt; simp at hpt
    | ok pi =>
      rw [hi] at hpt
      simp only [Except.ok.injEq] at hpt
      rw [hpt]
  unfold runMain
  rw [h2]
  obtain ⟨t1, t2⟩ := t
  simp only at ht1
  subst ht1
  exact ⟨rfl, rfl⟩

/-- C9 witness: a concrete batch holding only an Individual file processes
successfully, after which report generation fails and the snapshot of the
concrete prior store is untouched. -/
theorem empty_consolidated_report_fails_witness :
    (runMain pdW pvW [indFile] storeW "2025-02-02").1.history =
        storeW.history ∧
      (runMain pdW pvW [indFile] storeW "2025-02-02").2 =
        Except.error "KeyError: Reference_Date" :=
  empty_consolidated_report_fails pdW pvW [indFile] storeW "2025-02-02"
    (fun f hf => by
      have hfe : f = indFile := by simpa using hf
      subst hfe
      exact Or.inl (by decide))
    ([], [indParsed]) rfl

/-- C10: the delta tracker tolerates both persisted snapshot shapes on a
non-empty table: with the legacy mapping shape it uses the consolidated
entry (default zero when absent) as the previous total, with the numeric
shape it uses the number itself, and it succeeds in both cases. -/
theorem legacy_snapshot_shape_tolerated (consolidated : List PRow)
    (ts : String) (uc n : Int) (entries : List (String × Int)) (now : String)
    (hne : consolidated ≠ []) :
    (∃ rep h1, generateReport consolidated
        (some ⟨ts, SnapVal.dict entries, uc⟩) now = Except.ok (rep, h1) ∧
      rep.newRecords = (consolidated.length : Int) -
        ((entries.lookup "consolidated").getD 0)) ∧
    (∃ rep h1, generateReport consolidated
        (some ⟨ts, SnapVal.num n, uc⟩) now = Except.ok (rep, h1) ∧
      rep.newRecords = (consolidated.length : Int) - n) := by
  cases hmax : (consolidated.map (·.referenceDate)).max? with
  | none =>
    exact absurd (by simpa using List.max?_eq_none_iff.mp hmax) hne
  | some latest =>
    constructor
    · unfold generateReport
      rw [hmax]
      exact ⟨_, _, rfl, rfl⟩
    · unfold generateReport
      rw [hmax]
      exact ⟨_, _, rfl, rfl⟩

/-- C10 witness: a one-record table against a legacy mapping snapshot with
consolidated entry 7 reports 1 - 7, and against a numeric snapshot 5
reports 1 - 5. -/
theorem legacy_snapshot_shape_tolerated_witness :
    (∃ rep h1, generateReport [rowV1]
        (some ⟨"2025-01-01", SnapVal.dict [("individual", 3),
          ("consolidated", 7)], 2⟩) "run-three" = Except.ok (rep, h1) ∧
      rep.newRecords = (([rowV1].length : Nat) : Int) -
        (([("individual", 3), ("consolidated", 7)].lookup
          "consolidated").getD 0)) ∧
    (∃ rep h1, generateReport [rowV1]
        (some ⟨"2025-01-01", SnapVal.num 5, 2⟩) "run-three" =
          Except.ok (rep, h1) ∧
      rep.newRecords = (([rowV1].length : Nat) : Int) - 5) :=
  legacy_snapshot_shape_tolerated [rowV1] "2025-01-01" 2 5
    [("individual", 3), ("consolidated", 7)] "run-three" (by decide)

end CVM358
